import Mathlib

/- Verification development for the BitBattle repository.
   TypeScript strings are modelled as lists of characters; character classes
   are modelled on code points through Char.toNat.  The JavaScript functions
   String.prototype.toUpperCase and trim and the regex character classes are
   embedded over the Basic Latin range, which is the range the room-code and
   username formats are defined over. -/

namespace BitBattle

/-- Character class of the regex fragment [A-Z] (code points 65 to 90). -/
def isUpperAZ (c : Char) : Bool := 65 ≤ c.toNat && c.toNat ≤ 90

/-- Character class of the regex fragment \d, that is [0-9] (code points 48 to 57). -/
def isDigit09 (c : Char) : Bool := 48 ≤ c.toNat && c.toNat ≤ 57

/-- Embedding of isValidRoomCode from
    src/bitbattle-frontend/src/utils/roomUtils.ts, lines 13 to 17: the test of
    the anchored regex ^[A-Z]+-[A-Z]+-\d{4}$ against the whole input.  Since
    the hyphen and the digits are outside [A-Z], the greedy maximal munch of
    each [A-Z]+ block is the only possible match, so the regex test is
    embedded as the corresponding left-to-right parse. -/
def isValidRoomCode (s : List Char) : Bool :=
  match s.takeWhile isUpperAZ, s.dropWhile isUpperAZ with
  | _ :: _, '-' :: r2 =>
    (match r2.takeWhile isUpperAZ, r2.dropWhile isUpperAZ with
     | _ :: _, '-' :: r3 => r3.length == 4 && r3.all isDigit09
     | _, _ => false)
  | _, _ => false

/-- The adjectives array of generateRoomCode (roomUtils.ts line 3). -/
def adjectives : List (List Char) :=
  [['S','W','I','F','T'], ['S','H','A','R','P'], ['Q','U','I','C','K'], ['S','M','A','R','T'],
   ['B','R','A','V','E'], ['F','A','S','T'], ['C','O','O','L'], ['E','P','I','C']]

/-- The nouns array of generateRoomCode (roomUtils.ts line 4). -/
def nouns : List (List Char) :=
  [['C','O','D','E','R'], ['H','A','C','K','E','R'], ['N','I','N','J','A'],
   ['M','A','S','T','E','R'], ['W','I','Z','A','R','D'], ['G','E','N','I','U','S'],
   ['H','E','R','O'], ['C','H','A','M','P']]

/-- Decimal rendering of a natural number, most significant digit first: the
    embedding of JavaScript template interpolation of a nonnegative integer. -/
def natToChars (n : Nat) : List Char :=
  ((Nat.digits 10 n).map Nat.digitChar).reverse

/-- Embedding of generateRoomCode (roomUtils.ts lines 2 to 11).  The draw
    Math.floor(Math.random() * 8) yields an index in Fin 8 into each word list
    and Math.floor(1000 + Math.random() * 9000) yields 1000 + k with
    k in Fin 9000, covering every outcome of the three random draws. -/
def generateRoomCode (ai ni : Fin 8) (k : Fin 9000) : List Char :=
  adjectives.getD ai.val [] ++ '-' :: (nouns.getD ni.val [] ++ '-' :: natToChars (1000 + k.val))

/-- Embedding of the Basic Latin action of String.prototype.toUpperCase: a
    lowercase letter a-z maps to its uppercase form, other characters are kept. -/
def jsToUpper (c : Char) : Char :=
  if 97 ≤ c.toNat ∧ c.toNat ≤ 122 then Char.ofNat (c.toNat - 32) else c

/-- The replacement applied to each character by
    replace(/[^A-Z0-9]/g, hyphen) in formatRoomCode. -/
def fmtChar (c : Char) : Char := if isUpperAZ c || isDigit09 c then c else '-'

/-- Embedding of formatRoomCode (roomUtils.ts lines 19 to 21):
    code.toUpperCase() followed by the global replacement of every character
    outside [A-Z0-9] with a hyphen. -/
def formatRoomCode (s : List Char) : List Char :=
  (s.map jsToUpper).map fmtChar

/-- The characters a formatRoomCode output may contain. -/
def isFmtAllowed (c : Char) : Bool := isUpperAZ c || isDigit09 c || c == '-'

/-- JavaScript whitespace recognised by String.prototype.trim over the Basic
    Latin range: tab, line feed, vertical tab, form feed, carriage return and
    space. -/
def isJsWhitespace (c : Char) : Bool :=
  c.toNat = 9 || c.toNat = 10 || c.toNat = 11 || c.toNat = 12 || c.toNat = 13 || c.toNat = 32

/-- Embedding of String.prototype.trim: drop whitespace from both ends. -/
def jsTrim (s : List Char) : List Char :=
  ((s.dropWhile isJsWhitespace).reverse.dropWhile isJsWhitespace).reverse

/-- Outcome of the RoomLobby manual-join handler. -/
inductive JoinAction where
  | noop : JoinAction
  | alertInvalid : JoinAction
  | join (code : List Char) (username : List Char) : JoinAction
deriving DecidableEq

/-- Embedding of handleJoinRoom from RoomLobby (src/unnamed/part_005, lines 28
    to 38): early return when the username or the room code trims to empty;
    otherwise the trimmed room code is normalised by formatRoomCode and passed
    to onJoinRoom only when isValidRoomCode accepts it, else an alert is
    shown. -/
def handleJoinRoom (username roomCode : List Char) : JoinAction :=
  if jsTrim username = [] ∨ jsTrim roomCode = [] then .noop
  else if isValidRoomCode (formatRoomCode (jsTrim roomCode)) then
    .join (formatRoomCode (jsTrim roomCode)) (jsTrim username)
  else .alertInvalid

/-- Character class of the regex [a-zA-Z0-9_-] in UsernameModal. -/
def isUsernameChar (c : Char) : Bool :=
  (97 ≤ c.toNat && c.toNat ≤ 122) || isUpperAZ c || isDigit09 c || c.toNat = 95 || c.toNat = 45

/-- The three validation failures of UsernameModal handleSubmit. -/
inductive UsernameError where
  | required : UsernameError
  | tooLong : UsernameError
  | badChars : UsernameError
deriving DecidableEq

/-- Outcome of UsernameModal handleSubmit: either a validation error is set
    and no request is made, or the trimmed username is submitted to
    setUsername. -/
inductive SubmitAction where
  | rejected (e : UsernameError) : SubmitAction
  | setUsername (u : List Char) : SubmitAction
deriving DecidableEq

/-- Embedding of handleSubmit from UsernameModal (src/unnamed/part_011, lines
    10 to 38): trim the input, then reject when empty, when longer than 20
    characters, or when some character falls outside [a-zA-Z0-9_-]; only
    otherwise call setUsername with the trimmed value. -/
def handleSubmit (inputValue : List Char) : SubmitAction :=
  if jsTrim inputValue = [] then .rejected .required
  else if 20 < (jsTrim inputValue).length then .rejected .tooLong
  else if (jsTrim inputValue).all isUsernameChar then .setUsername (jsTrim inputValue)
  else .rejected .badChars

/-- One row of the user_stats table with every column at its migration
    DEFAULT: the base columns from CREATE TABLE user_stats
    (migrations/20250101_004_ai_problems.sql, lines 53 to 65) and the
    per-difficulty rating columns added by
    migrations/20241229_002_refresh_tokens.sql, lines 32 to 47. -/
structure UserStatsRow where
  games_played : Int
  games_won : Int
  games_lost : Int
  problems_solved : Int
  total_submissions : Int
  fastest_solve_ms : Option Int
  current_streak : Int
  longest_streak : Int
  easy_rating : Int
  easy_peak_rating : Int
  easy_ranked_games : Int
  easy_ranked_wins : Int
  medium_rating : Int
  medium_peak_rating : Int
  medium_ranked_games : Int
  medium_ranked_wins : Int
  hard_rating : Int
  hard_peak_rating : Int
  hard_ranked_games : Int
  hard_ranked_wins : Int
deriving DecidableEq

/-- A freshly created per-user stats row: every column takes its DEFAULT
    (0 for counters, 1200 for each rating and peak rating, NULL for
    fastest_solve_ms). -/
def newUserStats : UserStatsRow where
  games_played := 0
  games_won := 0
  games_lost := 0
  problems_solved := 0
  total_submissions := 0
  fastest_solve_ms := none
  current_streak := 0
  longest_streak := 0
  easy_rating := 1200
  easy_peak_rating := 1200
  easy_ranked_games := 0
  easy_ranked_wins := 0
  medium_rating := 1200
  medium_peak_rating := 1200
  medium_ranked_games := 0
  medium_ranked_wins := 0
  hard_rating := 1200
  hard_peak_rating := 1200
  hard_ranked_games := 0
  hard_ranked_wins := 0

/-- Outcome of one apiFetch call: the JSON result of a successful response,
    the error thrown for a non-ok response, the session-expired error thrown
    by the refresh path, or a rejected fetch. -/
inductive ApiOutcome where
  | success (status : Nat) : ApiOutcome
  | apiError (status : Nat) : ApiOutcome
  | sessionExpired (status : Nat) : ApiOutcome
  | networkError : ApiOutcome
deriving DecidableEq

/-- Observable trace of one apiFetch call: its outcome, how many POSTs to
    /auth/refresh were made, how many times the original endpoint was
    fetched, and whether clearAuthTokens ran. -/
structure ApiTrace where
  outcome : ApiOutcome
  refreshCalls : Nat
  attempts : Nat
  tokensCleared : Bool
deriving DecidableEq

/-- response.ok of the Fetch API: status in the range 200 to 299. -/
def isOkStatus (s : Nat) : Bool := 200 ≤ s && s ≤ 299

/-- Embedding of apiFetch (src/bitbattle-frontend/src/utils/api.ts, lines 19
    to 64) together with refreshAccessToken (lines 67 to 110).  The statuses
    list holds the HTTP statuses the server answers for the successive fetches
    of the endpoint; hasRefreshToken says whether getRefreshToken finds a
    stored token and refreshOk whether the POST to /auth/refresh succeeds with
    an access_token.  The Bool argument is the skipRefresh parameter; callers
    outside the module always pass false, and the single retry passes true. -/
def apiFetchModel (hasRefreshToken refreshOk : Bool) :
    List Nat → Bool → ApiTrace
  | [], _ => { outcome := .networkError, refreshCalls := 0, attempts := 0, tokensCleared := false }
  | status :: rest, skipRefresh =>
    if status = 401 ∧ skipRefresh = false then
      if hasRefreshToken ∧ refreshOk then
        let t := apiFetchModel hasRefreshToken refreshOk rest true
        { t with refreshCalls := t.refreshCalls + 1, attempts := t.attempts + 1 }
      else
        { outcome := .sessionExpired 401,
          refreshCalls := if hasRefreshToken then 1 else 0,
          attempts := 1, tokensCleared := true }
    else if isOkStatus status then
      { outcome := .success status, refreshCalls := 0, attempts := 1, tokensCleared := false }
    else
      { outcome := .apiError status, refreshCalls := 0, attempts := 1, tokensCleared := false }

/-- Outcome of a single fetch of the endpoint with refreshing disabled, used
    to state that the 401-refresh path retries the original request exactly
    once. -/
def plainFetchOutcome : List Nat → ApiOutcome
  | [] => .networkError
  | status :: _ => if isOkStatus status then .success status else .apiError status

/-- The problem record carried by spectate frames (src/unnamed/part_004,
    lines 5 to 15). -/
structure ProblemExample where
  input : List Char
  expected_output : List Char
  explanation : Option (List Char)
deriving DecidableEq

/-- Problem shape used by SpectatorView. -/
structure Problem where
  id : List Char
  title : List Char
  description : List Char
  difficulty : List Char
  examples : List ProblemExample
deriving DecidableEq

/-- game_over payload as typed in SpectatorView (part_004, lines 29 to 35). -/
structure GameOverData where
  winner : List Char
  solve_time_ms : Nat
  problem_id : List Char
  difficulty : List Char
  game_mode : List Char
deriving DecidableEq

/-- spectate_init payload as typed in SpectatorView (part_004, lines 17 to 27). -/
structure SpectateInitData where
  room_id : List Char
  players : List (List Char)
  game_mode : List Char
  game_started : Bool
  game_ended : Bool
  winner : Option (List Char)
  problem : Option Problem
  player_codes : List (List Char × List Char)
  spectator_count : Nat
deriving DecidableEq

/-- The component state of SpectatorView: one field per useState hook
    (part_004, lines 41 to 50).  The room code shown by the view is the URL
    parameter, not component state. -/
structure SpectatorState where
  isConnected : Bool
  error : Option (List Char)
  players : List (List Char)
  playerCodes : List (List Char × List Char)
  problem : Option Problem
  gameMode : List Char
  gameEnded : Bool
  winner : Option (List Char)
  spectatorCount : Nat
  gameOverData : Option GameOverData
deriving DecidableEq

/-- The spectate_init case of the SpectatorView message handler (part_004,
    lines 69 to 79): exactly seven setState calls, taking players,
    player_codes, problem, game_mode, game_ended, winner and spectator_count
    from the payload. -/
def applySpectateInit (st : SpectatorState) (d : SpectateInitData) : SpectatorState :=
  { st with
    players := d.players
    playerCodes := d.player_codes
    problem := d.problem
    gameMode := d.game_mode
    gameEnded := d.game_ended
    winner := d.winner
    spectatorCount := d.spectator_count }

/-- The user_joined case of the SpectatorView handler (part_004, lines 85 to
    89): append the username unless it is already present. -/
def spectUserJoined (ps : List (List Char)) (u : List Char) : List (List Char) :=
  if u ∈ ps then ps else ps ++ [u]

/-- The user_left case of the SpectatorView handler (part_004, lines 90 to
    94): keep only the other usernames. -/
def spectUserLeft (ps : List (List Char)) (u : List Char) : List (List Char) :=
  ps.filter (fun p => p ≠ u)

/-- Iteration-ordered key list of the userEditors map of CollaborativeEditor
    (a JavaScript Map keyed by username). -/
def keysOf (m : List (List Char × List Char)) : List (List Char) := m.map Prod.fst

/-- The user_joined case of the CollaborativeEditor handleMessage
    (CollaborativeEditor.tsx, lines 284 to 308): when the map already has 4
    users and the username is new, the join is ignored; when the username is
    new it is inserted with the starter code; when the username is already
    present the map is left unchanged. -/
def collabUserJoined (m : List (List Char × List Char)) (u starter : List Char) :
    List (List Char × List Char) :=
  if 4 ≤ m.length ∧ u ∉ keysOf m then m
  else if u ∉ keysOf m then m ++ [(u, starter)]
  else m

/-- The user_left case of the CollaborativeEditor handleMessage
    (CollaborativeEditor.tsx, lines 310 to 319): Map.delete of the username. -/
def collabUserLeft (m : List (List Char × List Char)) (u : List Char) :
    List (List Char × List Char) :=
  m.filter (fun e => e.1 ≠ u)

/-- The behaviour the claim text attributes to CollaborativeEditor on a
    user_joined carrying an already-present username: remove the old
    occurrence, then append a fresh entry for the username. -/
def collabUserJoinedClaimed (m : List (List Char × List Char)) (u starter : List Char) :
    List (List Char × List Char) :=
  (m.filter (fun e => e.1 ≠ u)) ++ [(u, starter)]

/-- A presence event processed by a client message handler.  The starter
    field is the starter code CollaborativeEditor computes for a new
    editor entry; SpectatorView ignores it. -/
inductive PresenceEvent where
  | joined (u : List Char) (starter : List Char) : PresenceEvent
  | left (u : List Char) : PresenceEvent
deriving DecidableEq

/-- SpectatorView participant list after a sequence of presence events. -/
def runSpect (ps : List (List Char)) : List PresenceEvent → List (List Char)
  | [] => ps
  | .joined u _ :: es => runSpect (spectUserJoined ps u) es
  | .left u :: es => runSpect (spectUserLeft ps u) es

/-- CollaborativeEditor userEditors map after a sequence of presence events. -/
def runCollab (m : List (List Char × List Char)) : List PresenceEvent → List (List Char × List Char)
  | [] => m
  | .joined u starter :: es => runCollab (collabUserJoined m u starter) es
  | .left u :: es => runCollab (collabUserLeft m u) es

/-- MatchInfo as produced by the matchmaking status endpoint (spec 4.5:
    room_code, opponent, difficulty, mode). -/
structure MatchInfo where
  room_code : List Char
  opponent : List Char
  difficulty : List Char
  game_mode : List Char
deriving DecidableEq

/-- One polled matchmaking status response. -/
structure MQStatus where
  match_found : Bool
  match_info : Option MatchInfo
  position : Nat
  queue_size : Nat
deriving DecidableEq

/-- The phase of the MatchmakingQueue component. -/
inductive MQMode where
  | joining : MQMode
  | queued : MQMode
  | matchFound : MQMode
  | errorState : MQMode
deriving DecidableEq

/-- Component state of MatchmakingQueue together with the list of
    onMatchFound invocations performed so far.  pollingActive models whether
    the 2 second status interval is still installed. -/
structure MQState where
  mode : MQMode
  queuePosition : Option Nat
  queueSize : Nat
  matchInfo : Option MatchInfo
  pollingActive : Bool
  onMatchFoundCalls : List MatchInfo
deriving DecidableEq

/-- The checkStatus body of the status-polling effect of MatchmakingQueue
    (MatchmakingQueue.tsx, lines 78 to 105): on a response with match_found
    and a non-null match_info the component records the match, clears the
    polling interval and invokes onMatchFound with that match_info; on any
    other response it only updates the displayed position and queue size. -/
def checkStatus (st : MQState) (r : MQStatus) : MQState :=
  if r.match_found ∧ r.match_info.isSome then
    { st with
      mode := .matchFound
      matchInfo := r.match_info
      pollingActive := false
      onMatchFoundCalls := st.onMatchFoundCalls ++ r.match_info.toList }
  else
    { st with queuePosition := some r.position, queueSize := r.queue_size }

/-- The component state right after a successful joinQueue response, when the
    polling effect installs the interval (MatchmakingQueue.tsx, lines 45 to
    47 and 107 to 111). -/
def mqQueuedInit (qsize : Nat) : MQState where
  mode := .queued
  queuePosition := none
  queueSize := qsize
  matchInfo := none
  pollingActive := true
  onMatchFoundCalls := []

/-- Sequential polling: each completed status response is processed in order
    while the polling interval is installed; once the interval is cleared no
    further response is processed. -/
def runPolling (st : MQState) : List MQStatus → MQState
  | [] => st
  | r :: rs => if st.pollingActive then runPolling (checkStatus st r) rs else st

/-- A status response that triggers the match branch of checkStatus. -/
def isMatchResponse (r : MQStatus) : Bool := r.match_found && r.match_info.isSome

/-- Modelled from the spec: the Room Manager (component C4 of the realtime
    battle server) is not under src/.  Spec section 4.4 gives the room phases
    Waiting, Countdown, Playing, Ended. -/
inductive Phase where
  | waiting : Phase
  | countdown : Phase
  | playing : Phase
  | ended : Phase
deriving DecidableEq

/-- Modelled from the spec: the phase and winner of one room. -/
structure RoomSt where
  phase : Phase
  winner : Option (List Char)
deriving DecidableEq

/-- Events a room broadcasts in response to submission pipeline results. -/
inductive RoomEvent where
  | submissionResult (u : List Char) (passed : Bool) : RoomEvent
  | gameOver (winner : List Char) : RoomEvent
deriving DecidableEq

/-- Modelled from the spec: the Room Manager observing one submission
    pipeline result under the room single-writer discipline (spec 4.4, the
    winner race and the failure semantics): the submitter always receives
    submission_result; the first passed result observed while the phase is
    Playing sets the winner, moves the room to Ended and additionally
    broadcasts game_over; every other result leaves the room state
    unchanged. -/
def observeResult (st : RoomSt) (u : List Char) (passed : Bool) : RoomSt × List RoomEvent :=
  if st.phase = .playing ∧ passed = true then
    ({ phase := .ended, winner := some u }, [.submissionResult u passed, .gameOver u])
  else
    (st, [.submissionResult u passed])

/-- Modelled from the spec: the sequence of pipeline results observed by the
    room writer, applied in observation order. -/
def runRoom (st : RoomSt) : List (List Char × Bool) → RoomSt × List RoomEvent
  | [] => (st, [])
  | (u, p) :: rest =>
    ((runRoom (observeResult st u p).1 rest).1,
      (observeResult st u p).2 ++ (runRoom (observeResult st u p).1 rest).2)

/-- The winners named by the game_over events of an event list. -/
def gameOverWinners (evs : List RoomEvent) : List (List Char) :=
  evs.filterMap (fun e => match e with | .gameOver w => some w | _ => none)

/-- How many submission_result events an event list holds. -/
def countSubmissionResults (evs : List RoomEvent) : Nat :=
  (evs.filter (fun e => match e with | .submissionResult _ _ => true | _ => false)).length

/-- A room in the Playing phase with no winner yet. -/
def playingRoom : RoomSt where
  phase := .playing
  winner := none

/- ------------------------------------------------------------------ -/
/- Theorems -/
/- ------------------------------------------------------------------ -/

/-- If every character of w satisfies p and x does not, the takeWhile and
    dropWhile of w followed by x followed by r split exactly at x. -/
theorem takeWhile_append_cons {p : Char → Bool} {w : List Char} (hw : w.all p = true)
    {x : Char} (hx : p x = false) (r : List Char) :
    (w ++ x :: r).takeWhile p = w ∧ (w ++ x :: r).dropWhile p = x :: r := by
  induction w with
  | nil => simp [List.takeWhile_cons, List.dropWhile_cons, hx]
  | cons a w ih =>
    simp only [List.all_cons, Bool.and_eq_true] at hw
    have h := ih hw.2
    simp [List.takeWhile_cons, List.dropWhile_cons, hw.1, h.1, h.2]

/-- Structural characterisation of the regex ^[A-Z]+-[A-Z]+-\d{4}$ : a list of
    characters passes isValidRoomCode exactly when it is a nonempty uppercase
    word, a hyphen, a nonempty uppercase word, a hyphen and exactly four
    decimal digits. -/
theorem isValidRoomCode_iff (s : List Char) :
    isValidRoomCode s = true ↔
      ∃ w1 w2 d : List Char, w1 ≠ [] ∧ w1.all isUpperAZ = true ∧
        w2 ≠ [] ∧ w2.all isUpperAZ = true ∧ d.length = 4 ∧ d.all isDigit09 = true ∧
        s = w1 ++ '-' :: (w2 ++ '-' :: d) := by
  constructor
  · intro h
    unfold isValidRoomCode at h
    split at h
    case h_2 => exact absurd h (by simp)
    case h_1 a l r2 htake hdrop =>
      split at h
      case h_2 => exact absurd h (by simp)
      case h_1 b m r3 htake2 hdrop2 =>
        simp only [Bool.and_eq_true, beq_iff_eq] at h
        refine ⟨a :: l, b :: m, r3, by simp, ?_, by simp, ?_, h.1, h.2, ?_⟩
        · rw [← htake]; exact List.all_takeWhile
        · rw [← htake2]; exact List.all_takeWhile
        · have hs : s = (a :: l) ++ '-' :: r2 := by
            rw [← htake, ← hdrop, List.takeWhile_append_dropWhile]
          have hr2 : r2 = (b :: m) ++ '-' :: r3 := by
            rw [← htake2, ← hdrop2, List.takeWhile_append_dropWhile]
          rw [hs, hr2]
  · rintro ⟨w1, w2, d, h1, h2, h3, h4, h5, h6, rfl⟩
    have hyph : isUpperAZ '-' = false := by decide
    have A := takeWhile_append_cons h2 hyph (w2 ++ '-' :: d)
    have B := takeWhile_append_cons h4 hyph d
    unfold isValidRoomCode
    rw [A.1, A.2]
    cases w1 with
    | nil => exact absurd rfl h1
    | cons a l =>
      simp only
      rw [B.1, B.2]
      cases w2 with
      | nil => exact absurd rfl h3
      | cons b m =>
        simp only [Bool.and_eq_true, beq_iff_eq]
        exact ⟨h5, h6⟩

/-- A number between 1000 and 9999 renders as exactly four decimal digits. -/
theorem natToChars_four_digits {n : Nat} (h1 : 1000 ≤ n) (h2 : n < 10000) :
    (natToChars n).length = 4 ∧ (natToChars n).all isDigit09 = true := by
  constructor
  · have e3 : (10 : Nat) ^ 3 = 1000 := by norm_num
    have e4 : (10 : Nat) ^ (3 + 1) = 10000 := by norm_num
    have hlog : Nat.log 10 n = 3 :=
      Nat.log_eq_of_pow_le_of_lt_pow (by omega) (by omega)
    unfold natToChars
    rw [List.length_reverse, List.length_map,
      Nat.digits_len 10 n (by norm_num) (by omega), hlog]
  · simp only [natToChars, List.all_eq_true, List.mem_reverse, List.mem_map]
    rintro c ⟨d, hd, rfl⟩
    have hlt : d < 10 := Nat.digits_lt_base (by norm_num) hd
    interval_cases d <;> decide

/-- Every entry of the adjectives array is a nonempty uppercase word. -/
theorem adjectives_ok : ∀ i : Fin 8,
    adjectives.getD i.val [] ≠ [] ∧ (adjectives.getD i.val []).all isUpperAZ = true := by
  decide

/-- Every entry of the nouns array is a nonempty uppercase word. -/
theorem nouns_ok : ∀ i : Fin 8,
    nouns.getD i.val [] ≠ [] ∧ (nouns.getD i.val []).all isUpperAZ = true := by
  decide

/-- Claim C2: isValidRoomCode accepts exactly the strings made of a nonempty
    uppercase word, a hyphen, a nonempty uppercase word, a hyphen and exactly
    four decimal digits, and every room code the RoomLobby manual-join path
    hands to onJoinRoom was first accepted by the validator after
    formatRoomCode normalisation. -/
theorem roomCode_validator_spec (s u rc code un : List Char) :
    (isValidRoomCode s = true ↔
      ∃ w1 w2 d : List Char, w1 ≠ [] ∧ w1.all isUpperAZ = true ∧
        w2 ≠ [] ∧ w2.all isUpperAZ = true ∧ d.length = 4 ∧ d.all isDigit09 = true ∧
        s = w1 ++ '-' :: (w2 ++ '-' :: d)) ∧
    (handleJoinRoom u rc = .join code un → isValidRoomCode code = true) := by
  refine ⟨isValidRoomCode_iff s, ?_⟩
  intro h
  unfold handleJoinRoom at h
  split at h
  · exact absurd h (by simp)
  · split at h
    case isTrue hvalid =>
      injection h with h1 h2
      rw [← h1]
      exact hvalid
    case isFalse => exact absurd h (by simp)

/-- Witness for C2: joining with username alice and code SWIFT-CODER-1234
    reaches onJoinRoom, and the code it passes satisfies the validator. -/
theorem roomCode_validator_spec_witness :
    handleJoinRoom ['a','l','i','c','e']
        ['S','W','I','F','T','-','C','O','D','E','R','-','1','2','3','4']
      = .join ['S','W','I','F','T','-','C','O','D','E','R','-','1','2','3','4']
          ['a','l','i','c','e'] ∧
    isValidRoomCode ['S','W','I','F','T','-','C','O','D','E','R','-','1','2','3','4'] = true :=
  ⟨by decide,
   (roomCode_validator_spec ['S','W','I','F','T','-','C','O','D','E','R','-','1','2','3','4']
      ['a','l','i','c','e'] ['S','W','I','F','T','-','C','O','D','E','R','-','1','2','3','4']
      ['S','W','I','F','T','-','C','O','D','E','R','-','1','2','3','4']
      ['a','l','i','c','e']).2 (by decide)⟩

/-- Claim C3: every outcome of generateRoomCode is ADJECTIVE-NOUN-NNNN with
    the words drawn from the two fixed eight-element uppercase lists and NNNN
    between 1000 and 9999 inclusive rendered as exactly four decimal digits,
    and isValidRoomCode accepts every such outcome. -/
theorem generateRoomCode_spec (ai ni : Fin 8) (k : Fin 9000) :
    generateRoomCode ai ni k =
      adjectives.getD ai.val [] ++
        '-' :: (nouns.getD ni.val [] ++ '-' :: natToChars (1000 + k.val)) ∧
    1000 ≤ 1000 + k.val ∧ 1000 + k.val ≤ 9999 ∧
    (natToChars (1000 + k.val)).length = 4 ∧
    (natToChars (1000 + k.val)).all isDigit09 = true ∧
    isValidRoomCode (generateRoomCode ai ni k) = true := by
  have hk := k.isLt
  have hd := natToChars_four_digits (n := 1000 + k.val) (by omega) (by omega)
  refine ⟨rfl, by omega, by omega, hd.1, hd.2, ?_⟩
  exact (isValidRoomCode_iff _).mpr
    ⟨adjectives.getD ai.val [], nouns.getD ni.val [], natToChars (1000 + k.val),
      (adjectives_ok ai).1, (adjectives_ok ai).2, (nouns_ok ni).1, (nouns_ok ni).2,
      hd.1, hd.2, rfl⟩

/-- Every character produced by the replacement step is uppercase, a digit or
    a hyphen. -/
theorem fmtChar_allowed (c : Char) : isFmtAllowed (fmtChar c) = true := by
  unfold fmtChar
  split
  case isTrue h => simp [isFmtAllowed, h]
  case isFalse => decide

/-- The Basic Latin toUpperCase fixes every uppercase letter, digit and
    hyphen. -/
theorem jsToUpper_fixed {c : Char} (h : isFmtAllowed c = true) : jsToUpper c = c := by
  have hn : c.toNat ≤ 90 ∨ c.toNat = 45 := by
    simp only [isFmtAllowed, isUpperAZ, isDigit09, Bool.or_eq_true, Bool.and_eq_true,
      decide_eq_true_eq, beq_iff_eq] at h
    rcases h with (⟨_, h2⟩ | ⟨_, h2⟩) | h
    · omega
    · omega
    · subst h; right; rfl
  unfold jsToUpper
  rw [if_neg (by omega)]

/-- The replacement step fixes every uppercase letter, digit and hyphen. -/
theorem fmtChar_fixed {c : Char} (h : isFmtAllowed c = true) : fmtChar c = c := by
  unfold isFmtAllowed at h
  simp only [Bool.or_eq_true] at h
  rcases h with h1 | h1
  · have hc : (isUpperAZ c || isDigit09 c) = true := by
      rcases h1 with h | h <;> simp [h]
    simp [fmtChar, hc]
  · have hc : c = '-' := by simpa using h1
    subst hc; decide

/-- formatRoomCode on a cons unfolds pointwise. -/
theorem formatRoomCode_cons (a : Char) (t : List Char) :
    formatRoomCode (a :: t) = fmtChar (jsToUpper a) :: formatRoomCode t := rfl

/-- Claim C9: every formatRoomCode output consists only of uppercase letters,
    decimal digits and hyphens; formatRoomCode is idempotent; and it maps a
    lowercase, punctuated variant of a room code to the canonical uppercase
    hyphenated form. -/
theorem formatRoomCode_spec (s : List Char) :
    (formatRoomCode s).all isFmtAllowed = true ∧
    formatRoomCode (formatRoomCode s) = formatRoomCode s ∧
    formatRoomCode ['s','w','i','f','t','_','c','o','d','e','r','.','1','2','3','4']
      = ['S','W','I','F','T','-','C','O','D','E','R','-','1','2','3','4'] := by
  refine ⟨?_, ?_, by decide⟩
  · simp only [formatRoomCode, List.all_map, List.all_eq_true]
    intro c _
    exact fmtChar_allowed (jsToUpper c)
  · induction s with
    | nil => rfl
    | cons a t ih =>
      have h1 : isFmtAllowed (fmtChar (jsToUpper a)) = true := fmtChar_allowed _
      rw [formatRoomCode_cons, formatRoomCode_cons, jsToUpper_fixed h1, fmtChar_fixed h1, ih]

/-- Claim C10: handleSubmit calls setUsername exactly when the trimmed input
    is nonempty, at most 20 characters long and made only of letters, digits,
    underscores and hyphens, and then with exactly the trimmed value; on any
    violating input it sets a validation error instead. -/
theorem usernameModal_spec (input u : List Char) :
    (handleSubmit input = .setUsername u ↔
      u = jsTrim input ∧ jsTrim input ≠ [] ∧ (jsTrim input).length ≤ 20 ∧
        (jsTrim input).all isUsernameChar = true) ∧
    (¬ (jsTrim input ≠ [] ∧ (jsTrim input).length ≤ 20 ∧
        (jsTrim input).all isUsernameChar = true) →
      ∃ e, handleSubmit input = .rejected e) := by
  unfold handleSubmit
  split_ifs with h1 h2 h3
  · exact ⟨by simp [h1], fun _ => ⟨.required, rfl⟩⟩
  · refine ⟨⟨(fun h => by cases h), fun hc => absurd hc.2.2.1 (by omega)⟩,
      fun _ => ⟨.tooLong, rfl⟩⟩
  · refine ⟨⟨fun h => ?_, fun hc => by rw [hc.1]⟩,
      fun hno => absurd ⟨h1, by omega, h3⟩ hno⟩
    injection h with h4
    exact ⟨h4.symm, h1, by omega, h3⟩
  · refine ⟨⟨(fun h => by cases h), fun hc => absurd hc.2.2.2 h3⟩,
      fun _ => ⟨.badChars, rfl⟩⟩

/-- Witness for C10: the input bob is submitted as is; an input with an
    exclamation mark is rejected with a validation error. -/
theorem usernameModal_spec_witness :
    handleSubmit ['b','o','b'] = .setUsername ['b','o','b'] ∧
    (∃ e, handleSubmit ['a','!','b'] = .rejected e) :=
  ⟨(usernameModal_spec ['b','o','b'] ['b','o','b']).1.mpr (by decide),
   (usernameModal_spec ['a','!','b'] []).2 (by decide)⟩

/-- Claim C5: a freshly created user_stats row starts at rating 1200 and peak
    rating 1200 with zero ranked counters in each of the Easy, Medium and
    Hard buckets and zero overall game counters, so rating is at most peak
    rating and ranked wins at most ranked games at most games played hold in
    the initial state. -/
theorem newUserStats_spec :
    newUserStats.easy_rating = 1200 ∧ newUserStats.easy_peak_rating = 1200 ∧
    newUserStats.medium_rating = 1200 ∧ newUserStats.medium_peak_rating = 1200 ∧
    newUserStats.hard_rating = 1200 ∧ newUserStats.hard_peak_rating = 1200 ∧
    newUserStats.easy_ranked_games = 0 ∧ newUserStats.easy_ranked_wins = 0 ∧
    newUserStats.medium_ranked_games = 0 ∧ newUserStats.medium_ranked_wins = 0 ∧
    newUserStats.hard_ranked_games = 0 ∧ newUserStats.hard_ranked_wins = 0 ∧
    newUserStats.games_played = 0 ∧ newUserStats.games_won = 0 ∧
    newUserStats.games_lost = 0 ∧
    newUserStats.easy_rating ≤ newUserStats.easy_peak_rating ∧
    newUserStats.medium_rating ≤ newUserStats.medium_peak_rating ∧
    newUserStats.hard_rating ≤ newUserStats.hard_peak_rating ∧
    newUserStats.easy_ranked_wins ≤ newUserStats.easy_ranked_games ∧
    newUserStats.easy_ranked_games ≤ newUserStats.games_played ∧
    newUserStats.medium_ranked_wins ≤ newUserStats.medium_ranked_games ∧
    newUserStats.medium_ranked_games ≤ newUserStats.games_played ∧
    newUserStats.hard_ranked_wins ≤ newUserStats.hard_ranked_games ∧
    newUserStats.hard_ranked_games ≤ newUserStats.games_played := by
  decide

/-- A fetch with skipRefresh true never refreshes, never clears tokens,
    fetches the endpoint at most once and yields the plain outcome of its
    first response. -/
theorem apiFetch_skip_spec (hasR rOk : Bool) (rest : List Nat) :
    (apiFetchModel hasR rOk rest true).refreshCalls = 0 ∧
    (apiFetchModel hasR rOk rest true).attempts ≤ 1 ∧
    (apiFetchModel hasR rOk rest true).outcome = plainFetchOutcome rest ∧
    (apiFetchModel hasR rOk rest true).tokensCleared = false := by
  cases rest with
  | nil => simp [apiFetchModel, plainFetchOutcome]
  | cons st r =>
    simp only [apiFetchModel, plainFetchOutcome]
    rw [if_neg (by simp)]
    split <;> simp

/-- Claim C6: apiFetch refreshes at most once and fetches the endpoint at
    most twice; on a 401 with a stored refresh token and a successful
    refresh, the original request is retried exactly once with refreshing
    disabled and its plain outcome is returned; on a 401 with no stored
    refresh token or a failed refresh, all tokens are cleared and the
    session-expired error with status 401 is thrown with no retry. -/
theorem apiFetch_refresh_spec (hasR rOk : Bool) (s : Nat) (rest : List Nat) :
    (apiFetchModel hasR rOk (s :: rest) false).refreshCalls ≤ 1 ∧
    (apiFetchModel hasR rOk (s :: rest) false).attempts ≤ 2 ∧
    (apiFetchModel hasR rOk rest true).refreshCalls = 0 ∧
    (s = 401 → hasR = true → rOk = true →
      (apiFetchModel hasR rOk (s :: rest) false).outcome = plainFetchOutcome rest ∧
      (apiFetchModel hasR rOk (s :: rest) false).refreshCalls = 1 ∧
      (apiFetchModel hasR rOk (s :: rest) false).tokensCleared = false) ∧
    (s = 401 → ¬ (hasR = true ∧ rOk = true) →
      (apiFetchModel hasR rOk (s :: rest) false).outcome = .sessionExpired 401 ∧
      (apiFetchModel hasR rOk (s :: rest) false).tokensCleared = true ∧
      (apiFetchModel hasR rOk (s :: rest) false).attempts = 1) := by
  have hskip := apiFetch_skip_spec hasR rOk rest
  by_cases h401 : s = 401
  · subst h401
    by_cases hh : hasR = true ∧ rOk = true
    · obtain ⟨hr, ho⟩ := hh
      subst hr
      subst ho
      refine ⟨?_, ?_, hskip.1, fun _ _ _ => ⟨?_, ?_, ?_⟩, fun _ hn => absurd ⟨rfl, rfl⟩ hn⟩
      · simp [apiFetchModel, hskip.1]
      · have h2 := hskip.2.1
        simp only [apiFetchModel]
        simp
        omega
      · simp [apiFetchModel, hskip.2.2.1]
      · simp [apiFetchModel, hskip.1]
      · simp [apiFetchModel, hskip.2.2.2]
    · refine ⟨?_, ?_, hskip.1, fun _ hr ho => absurd ⟨hr, ho⟩ hh, fun _ _ => ⟨?_, ?_, ?_⟩⟩
      · simp [apiFetchModel, hh]
        split <;> omega
      · simp [apiFetchModel, hh]
      · simp [apiFetchModel, hh]
      · simp [apiFetchModel, hh]
      · simp [apiFetchModel, hh]
  · refine ⟨?_, ?_, hskip.1, fun hs => absurd hs h401, fun hs => absurd hs h401⟩
    · simp only [apiFetchModel]
      rw [if_neg (by simp [h401])]
      split <;> simp
    · simp only [apiFetchModel]
      rw [if_neg (by simp [h401])]
      split <;> simp

/-- Witness for C6: with statuses 401 then 200, a stored refresh token and a
    successful refresh, exactly one refresh happens, no tokens are cleared
    and the retried request yields the plain outcome of the 200 response. -/
theorem apiFetch_refresh_spec_witness :
    (apiFetchModel true true (401 :: [200]) false).outcome = plainFetchOutcome [200] ∧
    (apiFetchModel true true (401 :: [200]) false).refreshCalls = 1 ∧
    (apiFetchModel true true (401 :: [200]) false).tokensCleared = false :=
  (apiFetch_refresh_spec true true 401 [200]).2.2.2.1 rfl rfl rfl

/-- Claim C7 (amended): after the spectator client processes a spectate_init
    frame, its state equals the payload on players, player_codes, problem,
    game_mode, game_ended, winner and spectator_count; the payload fields
    game_started and room_id are ignored, so the resulting state is unchanged
    when only those two payload fields vary. -/
theorem spectateInit_spec (st : SpectatorState) (d : SpectateInitData)
    (rid : List Char) (gs : Bool) :
    (applySpectateInit st d).players = d.players ∧
    (applySpectateInit st d).playerCodes = d.player_codes ∧
    (applySpectateInit st d).problem = d.problem ∧
    (applySpectateInit st d).gameMode = d.game_mode ∧
    (applySpectateInit st d).gameEnded = d.game_ended ∧
    (applySpectateInit st d).winner = d.winner ∧
    (applySpectateInit st d).spectatorCount = d.spectator_count ∧
    applySpectateInit st { d with room_id := rid, game_started := gs } =
      applySpectateInit st d :=
  ⟨rfl, rfl, rfl, rfl, rfl, rfl, rfl, rfl⟩

/-- Counterexample for C7 as stated: two spectate_init payloads that differ
    in room_id and in game_started produce identical client states, so the
    state after processing cannot equal the payload on the room id or the
    game_started component of the game phase. -/
theorem spectateInit_counterexample :
    applySpectateInit
        { isConnected := true, error := none, players := [], playerCodes := [],
          problem := none, gameMode := ['c','a','s','u','a','l'], gameEnded := false,
          winner := none, spectatorCount := 0, gameOverData := none }
        { room_id := ['A'], players := [['a']], game_mode := ['c'], game_started := false,
          game_ended := false, winner := none, problem := none, player_codes := [],
          spectator_count := 1 }
      = applySpectateInit
        { isConnected := true, error := none, players := [], playerCodes := [],
          problem := none, gameMode := ['c','a','s','u','a','l'], gameEnded := false,
          winner := none, spectatorCount := 0, gameOverData := none }
        { room_id := ['B'], players := [['a']], game_mode := ['c'], game_started := true,
          game_ended := false, winner := none, problem := none, player_codes := [],
          spectator_count := 1 } ∧
    (['A'] : List Char) ≠ ['B'] ∧ false ≠ true := by
  refine ⟨rfl, by decide, by decide⟩

/-- Once the polling interval is cleared, no further response is processed. -/
theorem runPolling_inactive {st : MQState} (h : st.pollingActive = false) :
    ∀ rs, runPolling st rs = st := by
  intro rs
  cases rs with
  | nil => rfl
  | cons r rs => simp [runPolling, h]

/-- While the interval is installed, the onMatchFound invocations accumulated
    by a response sequence are exactly the match_info of its first match
    response, and the interval survives exactly when there is none. -/
theorem runPolling_calls (resps : List MQStatus) : ∀ st : MQState,
    st.pollingActive = true →
    (runPolling st resps).onMatchFoundCalls =
      st.onMatchFoundCalls ++ ((resps.find? isMatchResponse).bind MQStatus.match_info).toList ∧
    (runPolling st resps).pollingActive = (resps.find? isMatchResponse).isNone := by
  induction resps with
  | nil =>
    intro st h
    simp [runPolling, h]
  | cons r rs ih =>
    intro st h
    by_cases hr : isMatchResponse r = true
    · have hcond : r.match_found = true ∧ r.match_info.isSome = true := by
        simpa [isMatchResponse] using hr
      have hfind : (r :: rs).find? isMatchResponse = some r := by
        simp [List.find?_cons, hr]
      have hstep : checkStatus st r =
          { st with mode := .matchFound, matchInfo := r.match_info, pollingActive := false,
                    onMatchFoundCalls := st.onMatchFoundCalls ++ r.match_info.toList } := by
        unfold checkStatus
        rw [if_pos hcond]
      have hstop : runPolling (checkStatus st r) rs = checkStatus st r :=
        runPolling_inactive (by rw [hstep]) rs
      constructor
      · rw [runPolling, if_pos h, hstop, hstep, hfind]
        simp
      · rw [runPolling, if_pos h, hstop, hstep, hfind]
        simp
    · have hfind : (r :: rs).find? isMatchResponse = rs.find? isMatchResponse := by
        simp [List.find?_cons, hr]
      have hcond : ¬ (r.match_found = true ∧ r.match_info.isSome = true) := by
        intro hc
        exact hr (by simp [isMatchResponse, hc.1, hc.2])
      have hstep : checkStatus st r =
          { st with queuePosition := some r.position, queueSize := r.queue_size } := by
        unfold checkStatus
        rw [if_neg hcond]
      have hnext := ih (checkStatus st r) (by rw [hstep]; exact h)
      constructor
      · rw [runPolling, if_pos h, hnext.1, hstep, hfind]
      · rw [runPolling, if_pos h, hnext.2, hfind]

/-- Claim C8: over any polled status response sequence, onMatchFound is
    invoked exactly for the first response with match_found and a non-null
    match_info, exactly once and with exactly that match_info; polling stops
    exactly then, and onMatchFound is never invoked twice nor with a response
    that has match_found false. -/
theorem matchmaking_once_spec (qsize : Nat) (resps : List MQStatus) :
    (runPolling (mqQueuedInit qsize) resps).onMatchFoundCalls =
      ((resps.find? isMatchResponse).bind MQStatus.match_info).toList ∧
    (runPolling (mqQueuedInit qsize) resps).pollingActive =
      (resps.find? isMatchResponse).isNone ∧
    (runPolling (mqQueuedInit qsize) resps).onMatchFoundCalls.length ≤ 1 := by
  have h := runPolling_calls resps (mqQueuedInit qsize) rfl
  refine ⟨by simpa [mqQueuedInit] using h.1, h.2, ?_⟩
  rw [h.1]
  cases ((resps.find? isMatchResponse).bind MQStatus.match_info) <;> simp [mqQueuedInit]

/-- The SpectatorView user_joined handler preserves distinctness of the
    participant list. -/
theorem spectUserJoined_nodup {ps : List (List Char)} {u : List Char} (h : ps.Nodup) :
    (spectUserJoined ps u).Nodup := by
  unfold spectUserJoined
  split
  · exact h
  case isFalse hu => simp [List.nodup_append, h, hu]

/-- The CollaborativeEditor user_joined handler preserves distinctness of the
    map keys. -/
theorem collabUserJoined_nodup {m : List (List Char × List Char)} {u starter : List Char}
    (h : (keysOf m).Nodup) : (keysOf (collabUserJoined m u starter)).Nodup := by
  unfold collabUserJoined
  split
  · exact h
  · split
    case isTrue hu => simp_all [keysOf, List.nodup_append]
    case isFalse => exact h

/-- The SpectatorView user_left handler preserves distinctness. -/
theorem spectUserLeft_nodup {ps : List (List Char)} {u : List Char} (h : ps.Nodup) :
    (spectUserLeft ps u).Nodup :=
  h.filter _

/-- The CollaborativeEditor user_left handler preserves distinctness of the
    map keys. -/
theorem collabUserLeft_nodup {m : List (List Char × List Char)} {u : List Char}
    (h : (keysOf m).Nodup) : (keysOf (collabUserLeft m u)).Nodup := by
  have hs : (keysOf (collabUserLeft m u)).Sublist (keysOf m) :=
    (List.filter_sublist m).map Prod.fst
  exact h.sublist hs

/-- user_left removes every occurrence of the username in SpectatorView. -/
theorem spectUserLeft_removes (ps : List (List Char)) (u : List Char) :
    u ∉ spectUserLeft ps u := by
  simp [spectUserLeft]

/-- user_left removes the username from the CollaborativeEditor map keys. -/
theorem collabUserLeft_removes (m : List (List Char × List Char)) (u : List Char) :
    u ∉ keysOf (collabUserLeft m u) := by
  simp [collabUserLeft, keysOf]

/-- Both handlers keep their participant collections duplicate-free under any
    sequence of user_joined and user_left events. -/
theorem runPresence_nodup (evs : List PresenceEvent) :
    ∀ (ps : List (List Char)) (m : List (List Char × List Char)),
    ps.Nodup → (keysOf m).Nodup →
    (runSpect ps evs).Nodup ∧ (keysOf (runCollab m evs)).Nodup := by
  induction evs with
  | nil => exact fun ps m h1 h2 => ⟨h1, h2⟩
  | cons e es ih =>
    intro ps m h1 h2
    cases e with
    | joined u starter =>
      simp only [runSpect, runCollab]
      exact ih _ _ (spectUserJoined_nodup h1) (collabUserJoined_nodup h2)
    | left u =>
      simp only [runSpect, runCollab]
      exact ih _ _ (spectUserLeft_nodup h1) (collabUserLeft_nodup h2)

/-- Claim C4 (amended): starting from duplicate-free participant state, any
    sequence of user_joined and user_left events leaves both the
    SpectatorView player list and the CollaborativeEditor map duplicate-free;
    a user_joined carrying an already-present username leaves both unchanged
    (both handlers skip the insert), and a user_left for username u removes
    every occurrence of u. -/
theorem participants_nodup_spec (ps : List (List Char)) (m : List (List Char × List Char))
    (evs : List PresenceEvent) (u starter : List Char)
    (hps : ps.Nodup) (hm : (keysOf m).Nodup) :
    (runSpect ps evs).Nodup ∧
    (keysOf (runCollab m evs)).Nodup ∧
    u ∉ spectUserLeft ps u ∧
    u ∉ keysOf (collabUserLeft m u) ∧
    (u ∈ ps → spectUserJoined ps u = ps) ∧
    (u ∈ keysOf m → collabUserJoined m u starter = m) := by
  have h := runPresence_nodup evs ps m hps hm
  refine ⟨h.1, h.2, spectUserLeft_removes ps u, collabUserLeft_removes m u, ?_, ?_⟩
  · intro hu
    simp [spectUserJoined, hu]
  · intro hu
    simp [collabUserJoined, hu]

/-- Witness for C4: concrete duplicate-free start states, a duplicate join
    followed by a leave, evaluated through the theorem. -/
theorem participants_nodup_spec_witness :
    ([['a']] : List (List Char)).Nodup ∧ (keysOf [(['a'], ['c'])]).Nodup ∧
    ((runSpect [['a']] [.joined ['a'] ['x'], .left ['b']]).Nodup ∧
     (keysOf (runCollab [(['a'], ['c'])] [.joined ['a'] ['x'], .left ['b']])).Nodup ∧
     ['a'] ∉ spectUserLeft [['a']] ['a'] ∧
     ['a'] ∉ keysOf (collabUserLeft [(['a'], ['c'])] ['a']) ∧
     (['a'] ∈ ([['a']] : List (List Char)) → spectUserJoined [['a']] ['a'] = [['a']]) ∧
     (['a'] ∈ keysOf [(['a'], ['c'])] →
        collabUserJoined [(['a'], ['c'])] ['a'] ['x'] = [(['a'], ['c'])])) :=
  ⟨by decide, by decide,
   participants_nodup_spec [['a']] [(['a'], ['c'])] [.joined ['a'] ['x'], .left ['b']]
     ['a'] ['x'] (by decide) (by decide)⟩

/-- Counterexample for C4 as stated: on a user_joined carrying the
    already-present username a, CollaborativeEditor keeps the existing entry
    with its old code untouched, while removing the old occurrence before
    appending would replace it with the starter code: the two behaviours
    disagree on this input. -/
theorem collabUserJoined_counterexample :
    collabUserJoined [(['a'], ['O'])] ['a'] ['N'] = [(['a'], ['O'])] ∧
    collabUserJoinedClaimed [(['a'], ['O'])] ['a'] ['N'] = [(['a'], ['N'])] ∧
    collabUserJoined [(['a'], ['O'])] ['a'] ['N'] ≠
      collabUserJoinedClaimed [(['a'], ['O'])] ['a'] ['N'] :=
  ⟨by decide, by decide, by decide⟩

/-- A room not in the Playing phase never changes state and only relays
    submission_result events. -/
theorem runRoom_not_playing (obs : List (List Char × Bool)) : ∀ st : RoomSt,
    st.phase ≠ .playing →
    runRoom st obs = (st, obs.map (fun o => .submissionResult o.1 o.2)) := by
  induction obs with
  | nil => intro st _; rfl
  | cons o rest ih =>
    intro st h
    obtain ⟨u, p⟩ := o
    have hobs : observeResult st u p = (st, [.submissionResult u p]) := by
      unfold observeResult
      rw [if_neg]
      rintro ⟨h1, _⟩
      exact h h1
    simp [runRoom, hobs, ih st h]

/-- Splitting game_over winners across an event list concatenation. -/
theorem gameOverWinners_append (a b : List RoomEvent) :
    gameOverWinners (a ++ b) = gameOverWinners a ++ gameOverWinners b := by
  simp [gameOverWinners, List.filterMap_append]

/-- No game_over event hides among relayed submission_result events. -/
theorem gameOverWinners_subs (l : List (List Char × Bool)) :
    gameOverWinners (l.map (fun o => RoomEvent.submissionResult o.1 o.2)) = [] := by
  induction l with
  | nil => rfl
  | cons o rest ih => simp [gameOverWinners, List.filterMap_cons]

/-- Characterisation of a Playing room: the game_over events name exactly the
    submitter of the first passing observation, and the room ends with that
    winner, or stays Playing if no observation passes. -/
theorem runRoom_playing (obs : List (List Char × Bool)) : ∀ w0 : Option (List Char),
    gameOverWinners (runRoom ⟨Phase.playing, w0⟩ obs).2 =
      ((obs.find? (fun o => o.2)).map Prod.fst).toList ∧
    (runRoom ⟨Phase.playing, w0⟩ obs).1 =
      (match obs.find? (fun o => o.2) with
       | some o => ⟨Phase.ended, some o.1⟩
       | none => ⟨Phase.playing, w0⟩) := by
  induction obs with
  | nil =>
    intro w0
    simp [runRoom, gameOverWinners, List.find?]
  | cons o rest ih =>
    intro w0
    obtain ⟨u, p⟩ := o
    cases p with
    | true =>
      have hobs : observeResult ⟨Phase.playing, w0⟩ u true =
          (⟨Phase.ended, some u⟩, [.submissionResult u true, .gameOver u]) := by
        unfold observeResult
        rw [if_pos ⟨rfl, rfl⟩]
      have hrest := runRoom_not_playing rest ⟨Phase.ended, some u⟩ (by simp)
      refine ⟨?_, ?_⟩
      · simp only [runRoom, hobs, hrest]
        rw [gameOverWinners_append]
        simp [gameOverWinners, gameOverWinners_subs, List.find?_cons]
      · simp only [runRoom, hobs, hrest]
        simp [List.find?_cons]
    | false =>
      have hobs : observeResult ⟨Phase.playing, w0⟩ u false =
          (⟨Phase.playing, w0⟩, [.submissionResult u false]) := by
        unfold observeResult
        rw [if_neg]
        rintro ⟨_, h⟩
        cases h
      refine ⟨?_, ?_⟩
      · simp only [runRoom, hobs]
        rw [gameOverWinners_append, (ih w0).1]
        simp [gameOverWinners, List.find?_cons]
      · simp only [runRoom, hobs]
        rw [(ih w0).2]
        simp [List.find?_cons]

/-- From any room state, at most one game_over is ever emitted. -/
theorem runRoom_winners_le_one (st : RoomSt) (obs : List (List Char × Bool)) :
    (gameOverWinners (runRoom st obs).2).length ≤ 1 := by
  obtain ⟨ph, w0⟩ := st
  cases ph with
  | playing =>
    rw [(runRoom_playing obs w0).1]
    cases (obs.find? (fun o => o.2)).map Prod.fst <;> simp
  | waiting =>
    rw [runRoom_not_playing obs ⟨Phase.waiting, w0⟩ (by simp)]
    simp [gameOverWinners_subs]
  | countdown =>
    rw [runRoom_not_playing obs ⟨Phase.countdown, w0⟩ (by simp)]
    simp [gameOverWinners_subs]
  | ended =>
    rw [runRoom_not_playing obs ⟨Phase.ended, w0⟩ (by simp)]
    simp [gameOverWinners_subs]

/-- The two event lists observeResult can emit hold exactly one
    submission_result each. -/
theorem countSubmissionResults_append (a b : List RoomEvent) :
    countSubmissionResults (a ++ b) = countSubmissionResults a + countSubmissionResults b := by
  simp [countSubmissionResults, List.filter_append]

/-- Every observed pipeline result produces exactly one submission_result. -/
theorem runRoom_subs_count (obs : List (List Char × Bool)) : ∀ st : RoomSt,
    countSubmissionResults (runRoom st obs).2 = obs.length := by
  induction obs with
  | nil => intro st; rfl
  | cons o rest ih =>
    intro st
    obtain ⟨u, p⟩ := o
    show countSubmissionResults
        ((observeResult st u p).2 ++ (runRoom (observeResult st u p).1 rest).2) = rest.length + 1
    rw [countSubmissionResults_append, ih]
    have : countSubmissionResults (observeResult st u p).2 = 1 := by
      unfold observeResult
      split <;> rfl
    omega

/-- Claim C1: in every execution at most one game_over is produced per room;
    from the Playing phase the game_over winner and the recorded room winner
    are exactly the submitter of the first passing result observed, every
    result still yields its submission_result, and an Ended room never
    transitions again. -/
theorem roomManager_game_over_spec (st : RoomSt) (w : Option (List Char))
    (obs : List (List Char × Bool)) :
    (gameOverWinners (runRoom st obs).2).length ≤ 1 ∧
    countSubmissionResults (runRoom st obs).2 = obs.length ∧
    gameOverWinners (runRoom playingRoom obs).2 =
      ((obs.find? (fun o => o.2)).map Prod.fst).toList ∧
    (runRoom playingRoom obs).1.winner = (obs.find? (fun o => o.2)).map Prod.fst ∧
    (runRoom ⟨Phase.ended, w⟩ obs).1 = ⟨Phase.ended, w⟩ := by
  have hp := runRoom_playing obs none
  refine ⟨runRoom_winners_le_one st obs, runRoom_subs_count obs st, hp.1, ?_, ?_⟩
  · rw [show playingRoom = (⟨Phase.playing, none⟩ : RoomSt) from rfl, hp.2]
    cases hf : obs.find? (fun o => o.2) <;> simp
  · rw [runRoom_not_playing obs ⟨Phase.ended, w⟩ (by simp)]

end BitBattle
